import Mathlib

/-!
Verification development for the runtime core of the `arancini`
Entity-Component-System library.

The storage layer (`Entity.add` / `get` / `find` / `has` / `remove` /
`destroy`) is translated from `packages/arancini-core/src/entity.ts`.
The collaborators that `entity.ts` calls — the `BitSet`, the
`SpaceManager`, the `QueryManager` and the component registry — are not
part of the available sources, so they are modelled from the
specification; each such definition carries a doc comment starting with
`Modelled from the spec:`.

Modelling conventions:
- a component type index (`clazz.componentIndex`) is a natural number;
- the entity's `_componentsBitSet` (spec §3: "a set of
  ComponentTypeIndex values") is a `Finset ℕ`;
- the entity's `_components` JavaScript object (keyed by component
  index) is an association list with the usual lookup/overwrite/delete
  semantics;
- the non-null back-references `space` and `world` of an entity are
  presence flags (`Bool`); an entity is live while both are set;
- thrown errors become `Except` values, and every mutating call also
  returns the world state at the point where it returned or threw.
-/

namespace Arancini

/-- Modelled from the spec: a Component is a typed data instance owned by
exactly one entity (§3).  `instId` is the object identity of the instance;
`typeIndex` stands for the `componentIndex` of its class
(`value._class.componentIndex` in `entity.ts`). -/
structure Component where
  instId : ℕ
  typeIndex : ℕ
deriving DecidableEq

/-- The error kinds of §7 that the storage layer can surface. -/
inductive EcsError where
  | duplicateComponent
  | componentNotFound
  | staleEntity
deriving DecidableEq

/-- Decidable equality of call results (Lean core does not provide it
for `Except`). -/
instance exceptDecEq {ε α : Type} [DecidableEq ε] [DecidableEq α] :
    DecidableEq (Except ε α)
  | Except.ok a, Except.ok b =>
    if h : a = b then Decidable.isTrue (by rw [h])
    else Decidable.isFalse fun hh => h (Except.ok.inj hh)
  | Except.ok _, Except.error _ => Decidable.isFalse fun hh => Except.noConfusion hh
  | Except.error _, Except.ok _ => Decidable.isFalse fun hh => Except.noConfusion hh
  | Except.error e, Except.error f =>
    if h : e = f then Decidable.isTrue (by rw [h])
    else Decidable.isFalse fun hh => h (Except.error.inj hh)

/-- Modelled from the spec: a QueryDescriptor compiled into its three
masks (§3): `requiredMask`, `anyMask`, `excludedMask`. -/
structure Query where
  requiredMask : Finset ℕ
  anyMask : Finset ℕ
  excludedMask : Finset ℕ
deriving DecidableEq

/-- Modelled from the spec: the matching rule of §4.4:
`matches(e, q) = containsAll(required) AND (any empty OR containsAny(any))
AND containsNone(excluded)`. -/
def matchesB (bs : Finset ℕ) (q : Query) : Bool :=
  decide (q.requiredMask ⊆ bs) &&
    (decide (q.anyMask = ∅) || decide ((bs ∩ q.anyMask).Nonempty)) &&
    decide (bs ∩ q.excludedMask = ∅)

/-! ### The `_components` map

`entity.ts` stores components in a plain object keyed by the component
index.  We model it as an association list with single-binding-per-key
lookup, overwrite and delete. -/

/-- Lookup in the `_components` object: `this._components[i]`. -/
def mapLookup : List (ℕ × Component) → ℕ → Option Component
  | [], _ => none
  | (k, c) :: m, i => if k = i then some c else mapLookup m i

/-- Deleting a key from the `_components` object: `delete this._components[i]`. -/
def mapDelete : List (ℕ × Component) → ℕ → List (ℕ × Component)
  | [], _ => []
  | (k, c) :: m, i => if k = i then mapDelete m i else (k, c) :: mapDelete m i

/-- Assigning a key in the `_components` object: `this._components[i] = c`. -/
def mapSet (m : List (ℕ × Component)) (i : ℕ) (c : Component) : List (ℕ × Component) :=
  (i, c) :: mapDelete m i

theorem mapLookup_mapDelete (m : List (ℕ × Component)) (i j : ℕ) :
    mapLookup (mapDelete m i) j = if j = i then none else mapLookup m j := by
  induction m with
  | nil => simp [mapDelete, mapLookup]
  | cons p m ih =>
    obtain ⟨k, c⟩ := p
    by_cases hk : k = i
    · subst hk
      by_cases hj : j = k
      · subst hj
        simp [mapDelete]
        simpa using ih
      · simp [mapDelete, mapLookup, hj, ih, Ne.symm hj]
    · by_cases hkj : k = j
      · subst hkj
        simp [mapDelete, mapLookup, hk]
      · simp [mapDelete, mapLookup, hk, hkj, ih]

theorem mapLookup_mapSet (m : List (ℕ × Component)) (i j : ℕ) (c : Component) :
    mapLookup (mapSet m i c) j = if j = i then some c else mapLookup m j := by
  by_cases hj : j = i <;>
    simp [mapSet, mapLookup, hj, Ne.symm, mapLookup_mapDelete]

/-! ### Entities -/

/-- The `Entity` class of `entity.ts`: unique `id`, `initialised` flag,
`space`/`world` back-references (modelled as presence flags), the
`_componentsBitSet` (a set of component type indices) and the
`_components` map from component index to component instance. -/
structure Entity where
  id : ℕ
  initialised : Bool
  space : Bool
  world : Bool
  _componentsBitSet : Finset ℕ
  _components : List (ℕ × Component)
deriving DecidableEq

/-- An entity is live while it is attached to a Space and a World. -/
def Entity.live (e : Entity) : Bool :=
  e.space && e.world

/-- Source `Entity.find` from `entity.ts`: `return this._components[value.componentIndex]`. -/
def Entity.find (e : Entity) (ti : ℕ) : Option Component :=
  mapLookup e._components ti

/-- Source `Entity.get` from `entity.ts`: returns the stored component if it is
not `undefined`, otherwise throws. -/
def Entity.get (e : Entity) (ti : ℕ) : Except EcsError Component :=
  match mapLookup e._components ti with
  | some c => Except.ok c
  | none => Except.error EcsError.componentNotFound

/-- Source `Entity.has` from `entity.ts`:
`return this._components[value.componentIndex] !== undefined`. -/
def Entity.has (e : Entity) (ti : ℕ) : Bool :=
  (mapLookup e._components ti).isSome

/-! ### Queries and the QueryManager -/

/-- Modelled from the spec: one registered query together with its live
result set (`QueryResultSet`), holding the ids of the matching entities. -/
structure RegisteredQuery where
  query : Query
  results : Finset ℕ
deriving DecidableEq

/-- The qualify/disqualify notifications of §4.4. -/
inductive Notif where
  | qualify (eid : ℕ) (q : Query)
  | disqualify (eid : ℕ) (q : Query)
deriving DecidableEq

/-- Modelled from the spec: the incremental maintenance step of §4.4 for
one query — given whether the entity now matches, insert it with a
qualify notification, remove it with a disqualify notification, or do
nothing when the match state is unchanged. -/
def updateQueryForEntity (eid : ℕ) (m : Bool) (rq : RegisteredQuery) :
    RegisteredQuery × List Notif :=
  if m then
    if eid ∈ rq.results then (rq, [])
    else ({ rq with results := insert eid rq.results }, [Notif.qualify eid rq.query])
  else
    if eid ∈ rq.results then
      ({ rq with results := rq.results.erase eid }, [Notif.disqualify eid rq.query])
    else (rq, [])

/-- Modelled from the spec: `QueryManager.onEntityComponentChange` —
re-evaluate `matches` for the changed entity against every registered
query, collecting the emitted notifications (§4.4). -/
def updateQueries (eid : ℕ) (bs : Finset ℕ) (qs : List RegisteredQuery) :
    List RegisteredQuery × List Notif :=
  (qs.map fun rq => (updateQueryForEntity eid (matchesB bs rq.query) rq).1,
   qs.flatMap fun rq => (updateQueryForEntity eid (matchesB bs rq.query) rq).2)

/-- Modelled from the spec: full deregistration of a destroyed entity —
it is removed from every result set it occurs in, with a disqualify
notification (§4.3, §4.4). -/
def deregisterQueries (eid : ℕ) (qs : List RegisteredQuery) :
    List RegisteredQuery × List Notif :=
  (qs.map fun rq => (updateQueryForEntity eid false rq).1,
   qs.flatMap fun rq => (updateQueryForEntity eid false rq).2)

/-! ### The World -/

/-- Modelled from the spec: the World composition root — owns the entity
collection (entities stay in the collection after destruction, marked
non-live, mirroring detached objects), the QueryManager state, the
component registry (a list of type keys in first-registration order) and
the id counters. -/
structure World where
  entities : List Entity
  queries : List RegisteredQuery
  componentRegistry : List ℕ
  nextEntityId : ℕ
  nextInstanceId : ℕ
deriving DecidableEq

/-- Locate a live entity by id (`add`/`remove` on a destroyed entity
surface `StaleEntityError`, §7). -/
def World.findLiveEntity (w : World) (eid : ℕ) : Option Entity :=
  w.entities.find? fun x => decide (x.id = eid) && x.live

/-- Write back a mutated entity object (reference semantics: every stored
occurrence of the entity with that id is the same object). -/
def World.setEntity (w : World) (e' : Entity) : World :=
  { w with entities := w.entities.map fun x => if x.id = e'.id then e' else x }

/-- Source `Entity.add` from `entity.ts`: throw if the component index is
already present in `_components`; otherwise construct the component,
store it and set its bit (`SpaceManager.addComponentToEntity`, modelled
from the spec §4.3), then inform the query manager.  Returns the world
state at return/throw time, the emitted notifications and the result. -/
def World.entityAdd (w : World) (eid ti : ℕ) :
    World × List Notif × Except EcsError Component :=
  match w.findLiveEntity eid with
  | none => (w, [], Except.error EcsError.staleEntity)
  | some e =>
    if (mapLookup e._components ti).isSome then
      (w, [], Except.error EcsError.duplicateComponent)
    else
      let c : Component := { instId := w.nextInstanceId, typeIndex := ti }
      let e' : Entity :=
        { e with
          _components := mapSet e._components ti c,
          _componentsBitSet := insert ti e._componentsBitSet,
          initialised := true }
      let w1 : World := { w.setEntity e' with nextInstanceId := w.nextInstanceId + 1 }
      let u := updateQueries e'.id e'._componentsBitSet w1.queries
      ({ w1 with queries := u.1 }, u.2, Except.ok c)

/-- The two call shapes of `Entity.remove`: a component class
(carrying its `componentIndex`) or a component instance. -/
inductive RemoveArg where
  | byType (ti : ℕ)
  | byInstance (c : Component)
deriving DecidableEq

/-- The component type index a `remove` argument resolves to. -/
def RemoveArg.index : RemoveArg → ℕ
  | RemoveArg.byType ti => ti
  | RemoveArg.byInstance c => c.typeIndex

/-- Source `Entity.remove` from `entity.ts`: for an instance, throw when
`_components[value._class.componentIndex]` is absent; for a class, throw
when `find` returns `undefined`; otherwise delete the map entry and
clear the bit (`SpaceManager.removeComponentFromEntity`, modelled from
the spec §4.3) and inform the query manager. -/
def World.entityRemove (w : World) (eid : ℕ) (v : RemoveArg) :
    World × List Notif × Except EcsError Unit :=
  match w.findLiveEntity eid with
  | none => (w, [], Except.error EcsError.staleEntity)
  | some e =>
    if (mapLookup e._components v.index).isSome then
      let e' : Entity :=
        { e with
          _components := mapDelete e._components v.index,
          _componentsBitSet := e._componentsBitSet.erase v.index }
      let w1 : World := w.setEntity e'
      let u := updateQueries e'.id e'._componentsBitSet w1.queries
      ({ w1 with queries := u.1 }, u.2, Except.ok ())
    else (w, [], Except.error EcsError.componentNotFound)

/-- Source `Entity.destroy` from `entity.ts`: `if (!this.space || !this.world)
return;` — otherwise `SpaceManager.destroyEntity` (modelled from the
spec §4.3): destroy all attached components, detach the entity from its
Space and World, and report full deregistration to the query manager. -/
def World.entityDestroy (w : World) (eid : ℕ) : World × List Notif :=
  match w.entities.find? (fun x => decide (x.id = eid)) with
  | none => (w, [])
  | some e =>
    if e.space && e.world then
      let e' : Entity :=
        { e with
          _components := [],
          _componentsBitSet := ∅,
          space := false,
          world := false }
      let w1 : World := w.setEntity e'
      let u := deregisterQueries eid w1.queries
      ({ w1 with queries := u.1 }, u.2)
    else (w, [])

/-- Modelled from the spec: `Space.createEntity` (§4.5) — allocate a
fresh id, an empty bitset and map, register the entity with the
QueryManager as a new empty-signature entity. -/
def World.createEntity (w : World) : World × List Notif × ℕ :=
  let e : Entity :=
    { id := w.nextEntityId, initialised := false, space := true, world := true,
      _componentsBitSet := ∅, _components := [] }
  let w1 : World := { w with entities := w.entities ++ [e], nextEntityId := w.nextEntityId + 1 }
  let u := updateQueries e.id e._componentsBitSet w1.queries
  ({ w1 with queries := u.1 }, u.2, e.id)

/-- Modelled from the spec: query registration (§4.4) — deduplicate by
structural equality of the compiled masks, and seed the result set by a
silent full scan over the live entities. -/
def World.registerQuery (w : World) (q : Query) : World :=
  if w.queries.any (fun rq => decide (rq.query = q)) then w
  else
    { w with
      queries := w.queries ++
        [{ query := q,
           results :=
             ((w.entities.filter fun e => e.live && matchesB e._componentsBitSet q).map
               fun e => e.id).toFinset }] }

/-- First index at which a type key occurs in the registry. -/
def lookupTypeIndex : List ℕ → ℕ → Option ℕ
  | [], _ => none
  | a :: l, t => if a = t then some 0 else (lookupTypeIndex l t).map (· + 1)

/-- Modelled from the spec: `ComponentRegistry.registerType` (§4.2) —
return the already-assigned index for a known type, otherwise append the
type and assign the next dense index. -/
def World.registerComponentType (w : World) (t : ℕ) : World × ℕ :=
  match lookupTypeIndex w.componentRegistry t with
  | some i => (w, i)
  | none => ({ w with componentRegistry := w.componentRegistry ++ [t] },
             w.componentRegistry.length)

/-! ### Call sequences -/

/-- The mutating and registering calls a caller can make on the world. -/
inductive Op where
  | create
  | destroy (eid : ℕ)
  | add (eid ti : ℕ)
  | remove (eid : ℕ) (v : RemoveArg)
  | registerQuery (q : Query)
  | registerComponentType (t : ℕ)
deriving DecidableEq

/-- The entity a call mutates, when it mutates one (for `create`, the
id the fresh entity will receive). -/
def opTarget (w : World) : Op → Option ℕ
  | Op.create => some w.nextEntityId
  | Op.destroy eid => some eid
  | Op.add eid _ => some eid
  | Op.remove eid _ => some eid
  | Op.registerQuery _ => none
  | Op.registerComponentType _ => none

/-- One call: the world afterwards and the notifications it emitted. -/
def applyStep (w : World) : Op → World × List Notif
  | Op.create => ((w.createEntity).1, (w.createEntity).2.1)
  | Op.destroy eid => w.entityDestroy eid
  | Op.add eid ti => ((w.entityAdd eid ti).1, (w.entityAdd eid ti).2.1)
  | Op.remove eid v => ((w.entityRemove eid v).1, (w.entityRemove eid v).2.1)
  | Op.registerQuery q => (w.registerQuery q, [])
  | Op.registerComponentType t => ((w.registerComponentType t).1, [])

/-- One call, keeping only the world. -/
def applyOp (w : World) (op : Op) : World :=
  (applyStep w op).1

/-- Run a call sequence from a starting world. -/
def runOps (w : World) (ops : List Op) : World :=
  ops.foldl applyOp w

/-- The world a freshly constructed `World` starts from. -/
def initialWorld : World :=
  { entities := [], queries := [], componentRegistry := [],
    nextEntityId := 0, nextInstanceId := 0 }

/-- The observable match state of an entity against a query: whether a
live entity with that id exists and its signature matches. -/
def matchStateAt (w : World) (eid : ℕ) (q : Query) : Bool :=
  match w.findLiveEntity eid with
  | some e => matchesB e._componentsBitSet q
  | none => false

/-! ### Basic lemmas about the query update step -/

theorem updateQueryForEntity_query (eid : ℕ) (m : Bool) (rq : RegisteredQuery) :
    (updateQueryForEntity eid m rq).1.query = rq.query := by
  unfold updateQueryForEntity
  cases m <;> by_cases h : eid ∈ rq.results <;> simp [h]

theorem updateQueryForEntity_results (eid : ℕ) (m : Bool) (rq : RegisteredQuery) :
    (updateQueryForEntity eid m rq).1.results =
      if m then insert eid rq.results else rq.results.erase eid := by
  unfold updateQueryForEntity
  cases m <;> by_cases h : eid ∈ rq.results <;>
    simp [h, Finset.insert_eq_self, Finset.erase_eq_self]

theorem mem_results_update {m : Bool} {eid j : ℕ} {r : Finset ℕ} :
    j ∈ (if m then insert eid r else r.erase eid) ↔
      (if j = eid then m = true else j ∈ r) := by
  cases m <;> by_cases hj : j = eid <;> subst_eqs <;>
    simp [Finset.mem_insert, Finset.mem_erase, *]

theorem updateQueries_fst (eid : ℕ) (bs : Finset ℕ) (qs : List RegisteredQuery) :
    (updateQueries eid bs qs).1 =
      qs.map fun rq => (updateQueryForEntity eid (matchesB bs rq.query) rq).1 := rfl

theorem updateQueries_queries (eid : ℕ) (bs : Finset ℕ) (qs : List RegisteredQuery) :
    (updateQueries eid bs qs).1.map (fun rq => rq.query) = qs.map fun rq => rq.query := by
  rw [updateQueries_fst, List.map_map]
  exact List.map_congr_left fun rq _ => updateQueryForEntity_query ..

theorem deregisterQueries_fst (eid : ℕ) (qs : List RegisteredQuery) :
    (deregisterQueries eid qs).1 =
      qs.map fun rq => (updateQueryForEntity eid false rq).1 := rfl

theorem deregisterQueries_queries (eid : ℕ) (qs : List RegisteredQuery) :
    (deregisterQueries eid qs).1.map (fun rq => rq.query) = qs.map fun rq => rq.query := by
  rw [deregisterQueries_fst, List.map_map]
  exact List.map_congr_left fun rq _ => updateQueryForEntity_query ..

/-! ### Lemmas about locating entities after a write-back -/

theorem ids_setEntity (l : List Entity) (e' : Entity) :
    (l.map fun x => if x.id = e'.id then e' else x).map (fun x => x.id) =
      l.map fun x => x.id := by
  induction l with
  | nil => rfl
  | cons a l ih =>
    by_cases h : a.id = e'.id <;> simp [h, ih]

theorem find?_replace_some {l : List Entity} {eid : ℕ} {e e' : Entity}
    (hid : e'.id = eid) (hl : e'.live = true)
    (h : l.find? (fun x => decide (x.id = eid) && x.live) = some e) :
    (l.map fun x => if x.id = eid then e' else x).find?
        (fun x => decide (x.id = eid) && x.live) = some e' := by
  induction l with
  | nil => simp [List.find?] at h
  | cons a l ih =>
    by_cases ha : a.id = eid
    · simp [List.find?, ha, hid, hl]
    · rw [List.find?_cons_of_neg _ (by simp [ha])] at h
      simpa [List.find?, ha, List.find?_cons_of_neg] using ih h

theorem find?_replace_dead {l : List Entity} {eid : ℕ} {e' : Entity}
    (hl : e'.live = false) :
    (l.map fun x => if x.id = eid then e' else x).find?
        (fun x => decide (x.id = eid) && x.live) = none := by
  induction l with
  | nil => rfl
  | cons a l ih =>
    by_cases ha : a.id = eid
    · by_cases he : e'.id = eid <;>
        simpa [List.find?, ha, he, hl] using ih
    · simpa [List.find?, ha] using ih

theorem find?_id_replace {l : List Entity} {eid : ℕ} {e e' : Entity}
    (hid : e'.id = eid)
    (h : l.find? (fun x => decide (x.id = eid)) = some e) :
    (l.map fun x => if x.id = eid then e' else x).find?
        (fun x => decide (x.id = eid)) = some e' := by
  induction l with
  | nil => simp [List.find?] at h
  | cons a l ih =>
    by_cases ha : a.id = eid
    · simp [List.find?, ha, hid]
    · rw [List.find?_cons_of_neg _ (by simp [ha])] at h
      simpa [List.find?, ha, List.find?_cons_of_neg] using ih h

/-! ### The QueryManager invariant -/

/-- The maintained state invariant: entity ids are unique and below the
id counter, registered queries are structurally distinct, result sets
hold only ids of live entities, and every result set agrees with the
matching rule on every live entity. -/
def Inv (w : World) : Prop :=
  (w.entities.map fun e => e.id).Nodup ∧
    (∀ e ∈ w.entities, e.id < w.nextEntityId) ∧
    (w.queries.map fun rq => rq.query).Nodup ∧
    (∀ rq ∈ w.queries, ∀ i ∈ rq.results, ∃ e ∈ w.entities, e.live = true ∧ e.id = i) ∧
    (∀ rq ∈ w.queries, ∀ e ∈ w.entities, e.live = true →
      (e.id ∈ rq.results ↔ matchesB e._componentsBitSet rq.query = true))

instance (w : World) : Decidable (Inv w) := by
  unfold Inv
  infer_instance

theorem id_inj_of_nodup {l : List Entity} (h : (l.map fun e => e.id).Nodup)
    {x y : Entity} (hx : x ∈ l) (hy : y ∈ l) (hxy : x.id = y.id) : x = y := by
  induction l with
  | nil => cases hx
  | cons a l ih =>
    rw [List.map_cons, List.nodup_cons] at h
    rcases List.mem_cons.mp hx with rfl | hx' <;>
      rcases List.mem_cons.mp hy with rfl | hy'
    · rfl
    · exact absurd (List.mem_map.mpr ⟨y, hy', hxy.symm⟩) h.1
    · exact absurd (List.mem_map.mpr ⟨x, hx', hxy⟩) h.1
    · exact ih h.2 hx' hy'

/-- The shared shape of a component add/remove: one live entity is
rewritten in place and the query manager re-evaluates it. -/
theorem inv_mutate (w : World) (hInv : Inv w) (e e' : Entity) (n : ℕ)
    (he : w.findLiveEntity e'.id = some e) (hlive : e'.live = true) :
    Inv (World.mk (w.entities.map fun x => if x.id = e'.id then e' else x)
      ((updateQueries e'.id e'._componentsBitSet w.queries).1)
      w.componentRegistry w.nextEntityId n) := by
  obtain ⟨hnd, hlt, hqnd, hrl, hc⟩ := hInv
  have hp := List.find?_some he
  simp only [Bool.and_eq_true, decide_eq_true_eq] at hp
  obtain ⟨hei, _⟩ := hp
  have hmem := List.mem_of_find?_eq_some he
  refine ⟨?_, ?_, ?_, ?_, ?_⟩
  · rw [ids_setEntity]
    exact hnd
  · intro f hf
    obtain ⟨x, hx, rfl⟩ := List.mem_map.mp hf
    by_cases hxe : x.id = e'.id
    · simp only [hxe, if_pos]
      have := hlt e hmem
      omega
    · simpa [hxe] using hlt x hx
  · rw [updateQueries_queries]
    exact hqnd
  · intro rq' hrq' i hi
    rw [updateQueries_fst] at hrq'
    obtain ⟨rq, hrq, rfl⟩ := List.mem_map.mp hrq'
    rw [updateQueryForEntity_results] at hi
    rw [mem_results_update] at hi
    by_cases hie : i = e'.id
    · refine ⟨e', List.mem_map.mpr ⟨e, hmem, by simp [hei]⟩, hlive, hie.symm⟩
    · rw [if_neg hie] at hi
      obtain ⟨x, hx, hxl, hxi⟩ := hrl rq hrq i hi
      refine ⟨x, List.mem_map.mpr ⟨x, hx, ?_⟩, hxl, hxi⟩
      rw [if_neg]
      omega
  · intro rq' hrq' f hf hfl
    rw [updateQueries_fst] at hrq'
    obtain ⟨rq, hrq, rfl⟩ := List.mem_map.mp hrq'
    rw [updateQueryForEntity_query, updateQueryForEntity_results]
    obtain ⟨x, hx, rfl⟩ := List.mem_map.mp hf
    by_cases hxe : x.id = e'.id
    · simp only [hxe, if_pos]
      rw [mem_results_update, if_pos rfl]
    · rw [if_neg hxe]
      rw [mem_results_update, if_neg hxe]
      rw [if_neg hxe] at hfl
      exact hc rq hrq x hx hfl

/-- The shared shape of a destruction: the entity object goes dead in
place and is deregistered from every result set. -/
theorem inv_unmutate (w : World) (hInv : Inv w) (eid : ℕ) (e' : Entity)
    (hid : e'.id = eid) (hdead : e'.live = false) :
    Inv (World.mk (w.entities.map fun x => if x.id = e'.id then e' else x)
      ((deregisterQueries eid w.queries).1)
      w.componentRegistry w.nextEntityId w.nextInstanceId) := by
  obtain ⟨hnd, hlt, hqnd, hrl, hc⟩ := hInv
  refine ⟨?_, ?_, ?_, ?_, ?_⟩
  · rw [ids_setEntity]
    exact hnd
  · intro f hf
    obtain ⟨x, hx, rfl⟩ := List.mem_map.mp hf
    by_cases hxe : x.id = e'.id
    · simp only [hxe, if_pos]
      have := hlt x hx
      omega
    · simpa [hxe] using hlt x hx
  · rw [deregisterQueries_queries]
    exact hqnd
  · intro rq' hrq' i hi
    rw [deregisterQueries_fst] at hrq'
    obtain ⟨rq, hrq, rfl⟩ := List.mem_map.mp hrq'
    rw [updateQueryForEntity_results, if_neg (by simp)] at hi
    have hine := Finset.ne_of_mem_erase hi
    obtain ⟨x, hx, hxl, hxi⟩ := hrl rq hrq i (Finset.mem_of_mem_erase hi)
    refine ⟨x, List.mem_map.mpr ⟨x, hx, ?_⟩, hxl, hxi⟩
    rw [if_neg]
    rw [hxi, hid]
    exact hine
  · intro rq' hrq' f hf hfl
    rw [deregisterQueries_fst] at hrq'
    obtain ⟨rq, hrq, rfl⟩ := List.mem_map.mp hrq'
    rw [updateQueryForEntity_query, updateQueryForEntity_results, if_neg (by simp)]
    obtain ⟨x, hx, rfl⟩ := List.mem_map.mp hf
    by_cases hxe : x.id = e'.id
    · rw [if_pos hxe] at hfl
      rw [hfl] at hdead
      cases hdead
    · rw [if_neg hxe] at hfl ⊢
      rw [Finset.mem_erase]
      have : x.id ≠ eid := fun h => hxe (h.trans hid.symm)
      simp only [this, true_and, ne_eq, not_false_iff]
      exact hc rq hrq x hx hfl

theorem inv_entityAdd (w : World) (hInv : Inv w) (eid ti : ℕ) :
    Inv (w.entityAdd eid ti).1 := by
  unfold World.entityAdd
  cases he : w.findLiveEntity eid with
  | none => exact hInv
  | some e =>
    dsimp only
    by_cases hdup : (mapLookup e._components ti).isSome = true
    · simp only [hdup, if_true]
      exact hInv
    · rw [if_neg hdup]
      have hp := List.find?_some he
      simp only [Bool.and_eq_true, decide_eq_true_eq] at hp
      exact inv_mutate w hInv e _ _ (hp.1.symm ▸ he) hp.2

theorem inv_entityRemove (w : World) (hInv : Inv w) (eid : ℕ) (v : RemoveArg) :
    Inv (w.entityRemove eid v).1 := by
  unfold World.entityRemove
  cases he : w.findLiveEntity eid with
  | none => exact hInv
  | some e =>
    dsimp only
    by_cases hp : (mapLookup e._components v.index).isSome = true
    · rw [if_pos hp]
      have hq := List.find?_some he
      simp only [Bool.and_eq_true, decide_eq_true_eq] at hq
      exact inv_mutate w hInv e _ _ (hq.1.symm ▸ he) hq.2
    · rw [if_neg hp]
      exact hInv

theorem inv_entityDestroy (w : World) (hInv : Inv w) (eid : ℕ) :
    Inv (w.entityDestroy eid).1 := by
  unfold World.entityDestroy
  cases he : w.entities.find? (fun x => decide (x.id = eid)) with
  | none => exact hInv
  | some e =>
    dsimp only
    by_cases hl : (e.space && e.world) = true
    · rw [if_pos hl]
      have hq := List.find?_some he
      simp only [decide_eq_true_eq] at hq
      exact inv_unmutate w hInv eid _ hq rfl
    · rw [if_neg hl]
      exact hInv

theorem inv_createEntity (w : World) (hInv : Inv w) :
    Inv (w.createEntity).1 := by
  obtain ⟨hnd, hlt, hqnd, hrl, hc⟩ := hInv
  refine ⟨?_, ?_, ?_, ?_, ?_⟩
  · simp only [World.createEntity, List.map_append, List.map_cons, List.map_nil]
    rw [List.nodup_append]
    refine ⟨hnd, List.nodup_singleton _, ?_⟩
    intro a ha hb
    obtain ⟨x, hx, rfl⟩ := List.mem_map.mp ha
    have := hlt x hx
    simp only [List.mem_singleton] at hb
    omega
  · intro f hf
    simp only [World.createEntity, List.mem_append, List.mem_singleton] at hf
    rcases hf with hf | rfl
    · have := hlt f hf
      simp only [World.createEntity]
      omega
    · simp [World.createEntity]
  · simp only [World.createEntity]
    rw [updateQueries_queries]
    exact hqnd
  · intro rq' hrq' i hi
    simp only [World.createEntity] at hrq' hi ⊢
    rw [updateQueries_fst] at hrq'
    obtain ⟨rq, hrq, rfl⟩ := List.mem_map.mp hrq'
    rw [updateQueryForEntity_results, mem_results_update] at hi
    by_cases hie : i = w.nextEntityId
    · subst hie
      exact ⟨_, List.mem_append_right _ (List.mem_singleton.mpr rfl), rfl, rfl⟩
    · rw [if_neg hie] at hi
      obtain ⟨x, hx, hxl, hxi⟩ := hrl rq hrq i hi
      exact ⟨x, List.mem_append_left _ hx, hxl, hxi⟩
  · intro rq' hrq' f hf hfl
    simp only [World.createEntity] at hrq' hf ⊢
    rw [updateQueries_fst] at hrq'
    obtain ⟨rq, hrq, rfl⟩ := List.mem_map.mp hrq'
    rw [updateQueryForEntity_query, updateQueryForEntity_results, mem_results_update]
    rcases List.mem_append.mp hf with hf' | hf'
    · have hne : f.id ≠ w.nextEntityId := by
        have := hlt f hf'
        omega
      rw [if_neg hne]
      exact hc rq hrq f hf' hfl
    · rw [List.mem_singleton] at hf'
      subst hf'
      rw [if_pos rfl]

theorem inv_registerQuery (w : World) (hInv : Inv w) (q : Query) :
    Inv (w.registerQuery q) := by
  obtain ⟨hnd, hlt, hqnd, hrl, hc⟩ := hInv
  unfold World.registerQuery
  by_cases hany : w.queries.any (fun rq => decide (rq.query = q)) = true
  · rw [if_pos hany]
    exact ⟨hnd, hlt, hqnd, hrl, hc⟩
  · rw [if_neg hany]
    have hnotin : ∀ rq ∈ w.queries, rq.query ≠ q := by
      intro rq hrq h
      exact hany (List.any_eq_true.mpr ⟨rq, hrq, by simp [h]⟩)
    refine ⟨hnd, hlt, ?_, ?_, ?_⟩
    · simp only [List.map_append, List.map_cons, List.map_nil]
      rw [List.nodup_append]
      refine ⟨hqnd, List.nodup_singleton _, ?_⟩
      intro a ha hb
      obtain ⟨rq, hrq, rfl⟩ := List.mem_map.mp ha
      simp only [List.mem_singleton] at hb
      exact hnotin rq hrq hb
    · intro rq' hrq' i hi
      rcases List.mem_append.mp hrq' with h | h
      · exact hrl rq' h i hi
      · rw [List.mem_singleton] at h
        subst h
        simp only [List.mem_toFinset, List.mem_map, List.mem_filter,
          Bool.and_eq_true] at hi
        obtain ⟨x, ⟨hx, hxl, _⟩, rfl⟩ := hi
        exact ⟨x, hx, hxl, rfl⟩
    · intro rq' hrq' f hf hfl
      rcases List.mem_append.mp hrq' with h | h
      · exact hc rq' h f hf hfl
      · rw [List.mem_singleton] at h
        subst h
        simp only [List.mem_toFinset, List.mem_map, List.mem_filter,
          Bool.and_eq_true]
        constructor
        · rintro ⟨x, ⟨hx, _, hxm⟩, hxi⟩
          have := id_inj_of_nodup hnd hx hf hxi
          subst this
          exact hxm
        · intro hm
          exact ⟨f, ⟨hf, hfl, hm⟩, rfl⟩

theorem inv_registerComponentType (w : World) (hInv : Inv w) (t : ℕ) :
    Inv (w.registerComponentType t).1 := by
  unfold World.registerComponentType
  cases lookupTypeIndex w.componentRegistry t with
  | none => exact hInv
  | some i => exact hInv

theorem inv_applyOp (w : World) (hInv : Inv w) (op : Op) :
    Inv (applyOp w op) := by
  cases op with
  | create => exact inv_createEntity w hInv
  | destroy eid => exact inv_entityDestroy w hInv eid
  | add eid ti => exact inv_entityAdd w hInv eid ti
  | remove eid v => exact inv_entityRemove w hInv eid v
  | registerQuery q => exact inv_registerQuery w hInv q
  | registerComponentType t => exact inv_registerComponentType w hInv t

theorem inv_initialWorld : Inv initialWorld := by
  refine ⟨List.nodup_nil, ?_, List.nodup_nil, ?_, ?_⟩ <;> intro x hx <;> cases hx

theorem inv_runOps (w : World) (hInv : Inv w) (ops : List Op) :
    Inv (runOps w ops) := by
  induction ops generalizing w with
  | nil => exact hInv
  | cons op ops ih => exact ih (applyOp w op) (inv_applyOp w hInv op)

/-! ### Agreement of the signature bitset with the component map -/

/-- For every stored entity, the `_componentsBitSet` and the
`_components` map name exactly the same component type indices. -/
def BitsetMapAgree (w : World) : Prop :=
  ∀ e ∈ w.entities, ∀ i : ℕ, (i ∈ e._componentsBitSet ↔ e.has i = true)

theorem bitsetMapAgree_setEntity {w : World} (hA : BitsetMapAgree w) {e' : Entity}
    (he' : ∀ i : ℕ, i ∈ e'._componentsBitSet ↔ e'.has i = true) :
    ∀ f ∈ w.entities.map fun x => if x.id = e'.id then e' else x, ∀ i : ℕ,
      (i ∈ f._componentsBitSet ↔ f.has i = true) := by
  intro f hf i
  obtain ⟨x, hx, rfl⟩ := List.mem_map.mp hf
  by_cases hxe : x.id = e'.id
  · rw [if_pos hxe]
    exact he' i
  · rw [if_neg hxe]
    exact hA x hx i

theorem agree_applyOp (w : World) (hA : BitsetMapAgree w) (op : Op) :
    BitsetMapAgree (applyOp w op) := by
  cases op with
  | create =>
    intro f hf i
    rcases List.mem_append.mp hf with hf' | hf'
    · exact hA f hf' i
    · rw [List.mem_singleton] at hf'
      subst hf'
      simp [Entity.has, mapLookup]
  | destroy eid =>
    unfold applyOp applyStep World.entityDestroy
    dsimp only
    cases he : w.entities.find? (fun x => decide (x.id = eid)) with
    | none => exact hA
    | some e =>
      dsimp only
      by_cases hl : (e.space && e.world) = true
      · rw [if_pos hl]
        refine bitsetMapAgree_setEntity hA ?_
        intro i
        simp [Entity.has, mapLookup]
      · rw [if_neg hl]
        exact hA
  | add eid ti =>
    unfold applyOp applyStep World.entityAdd
    dsimp only
    cases he : w.findLiveEntity eid with
    | none => exact hA
    | some e =>
      dsimp only
      by_cases hdup : (mapLookup e._components ti).isSome = true
      · simp only [hdup, if_true]
        exact hA
      · rw [if_neg hdup]
        refine bitsetMapAgree_setEntity hA ?_
        intro i
        have hx := List.mem_of_find?_eq_some he
        by_cases hit : i = ti
        · subst hit
          simp [Entity.has, mapLookup_mapSet]
        · simp only [Entity.has, mapLookup_mapSet, if_neg hit, Finset.mem_insert, hit,
            false_or]
          exact hA e hx i
  | remove eid v =>
    unfold applyOp applyStep World.entityRemove
    dsimp only
    cases he : w.findLiveEntity eid with
    | none => exact hA
    | some e =>
      dsimp only
      by_cases hp : (mapLookup e._components v.index).isSome = true
      · rw [if_pos hp]
        refine bitsetMapAgree_setEntity hA ?_
        intro i
        have hx := List.mem_of_find?_eq_some he
        by_cases hit : i = v.index
        · subst hit
          simp [Entity.has, mapLookup_mapDelete]
        · simp only [Entity.has, mapLookup_mapDelete, if_neg hit, Finset.mem_erase,
            ne_eq, hit, not_false_iff, true_and]
          exact hA e hx i
      · rw [if_neg hp]
        exact hA
  | registerQuery q =>
    unfold applyOp applyStep World.registerQuery
    dsimp only
    by_cases hany : w.queries.any (fun rq => decide (rq.query = q)) = true
    · rw [if_pos hany]
      exact hA
    · rw [if_neg hany]
      exact hA
  | registerComponentType t =>
    unfold applyOp applyStep World.registerComponentType
    dsimp only
    cases lookupTypeIndex w.componentRegistry t with
    | none => exact hA
    | some i => exact hA

theorem agree_initialWorld : BitsetMapAgree initialWorld := by
  intro e he
  cases he

theorem agree_runOps (w : World) (hA : BitsetMapAgree w) (ops : List Op) :
    BitsetMapAgree (runOps w ops) := by
  induction ops generalizing w with
  | nil => exact hA
  | cons op ops ih => exact ih (applyOp w op) (agree_applyOp w hA op)

/-! ### Claim theorems -/

/-- C1: for every registered query `q` and every live entity `e`, at
every quiescent point — after any sequence of add/remove/create/destroy
and registration calls on a fresh world has returned — `e` is a member
of `q`'s result set if and only if `matches(e, q)`: `e`'s bitset
contains all of `q`'s required mask, intersects `q`'s any mask when that
mask is non-empty, and contains none of `q`'s excluded mask. -/
theorem query_results_match_invariant (ops : List Op) (rq : RegisteredQuery)
    (hrq : rq ∈ (runOps initialWorld ops).queries) (e : Entity)
    (he : e ∈ (runOps initialWorld ops).entities) (hlive : e.live = true) :
    e.id ∈ rq.results ↔ matchesB e._componentsBitSet rq.query = true :=
  (inv_runOps initialWorld inv_initialWorld ops).2.2.2.2 rq hrq e he hlive

theorem query_results_match_invariant_witness :
    (Entity.mk 0 true true true {0} [(0, Component.mk 0 0)]).id ∈
        (RegisteredQuery.mk (Query.mk {0} ∅ ∅) {0}).results ↔
      matchesB (Entity.mk 0 true true true {0} [(0, Component.mk 0 0)])._componentsBitSet
        (RegisteredQuery.mk (Query.mk {0} ∅ ∅) {0}).query = true :=
  query_results_match_invariant
    [Op.registerQuery (Query.mk {0} ∅ ∅), Op.create, Op.add 0 0]
    (RegisteredQuery.mk (Query.mk {0} ∅ ∅) {0}) (by decide)
    (Entity.mk 0 true true true {0} [(0, Component.mk 0 0)]) (by decide) (by decide)

/-- C2: after every mutating call — any sequence of calls on a fresh
world — the bit for a component type index in an entity's bitset is set
if and only if `has` reports that component present: the component map
and the bitset never disagree. -/
theorem bitset_has_agreement (ops : List Op) (e : Entity)
    (he : e ∈ (runOps initialWorld ops).entities) (i : ℕ) :
    i ∈ e._componentsBitSet ↔ e.has i = true :=
  agree_runOps initialWorld agree_initialWorld ops e he i

theorem bitset_has_agreement_witness :
    0 ∈ (Entity.mk 0 true true true {0} [(0, Component.mk 0 0)])._componentsBitSet ↔
      (Entity.mk 0 true true true {0} [(0, Component.mk 0 0)]).has 0 = true :=
  bitset_has_agreement [Op.create, Op.add 0 0]
    (Entity.mk 0 true true true {0} [(0, Component.mk 0 0)]) (by decide) 0

/-- C9: `get` fails with `ComponentNotFoundError` exactly when no
component of the requested type is attached and otherwise returns the
attached component; `find` never fails, returning the component when
present and nothing otherwise; `has` reports presence as a boolean. -/
theorem get_find_has_contract (e : Entity) (ti : ℕ) :
    (mapLookup e._components ti = none →
      e.get ti = Except.error EcsError.componentNotFound ∧
        e.find ti = none ∧ e.has ti = false) ∧
    (∀ c : Component, mapLookup e._components ti = some c →
      e.get ti = Except.ok c ∧ e.find ti = some c ∧ e.has ti = true) := by
  constructor
  · intro h
    simp [Entity.get, Entity.find, Entity.has, h]
  · intro c h
    simp [Entity.get, Entity.find, Entity.has, h]

theorem get_find_has_contract_witness :
    ((Entity.mk 0 true true true {0} [(0, Component.mk 5 0)]).get 1 =
        Except.error EcsError.componentNotFound ∧
      (Entity.mk 0 true true true {0} [(0, Component.mk 5 0)]).find 1 = none ∧
      (Entity.mk 0 true true true {0} [(0, Component.mk 5 0)]).has 1 = false) ∧
    ((Entity.mk 0 true true true {0} [(0, Component.mk 5 0)]).get 0 =
        Except.ok (Component.mk 5 0) ∧
      (Entity.mk 0 true true true {0} [(0, Component.mk 5 0)]).find 0 =
        some (Component.mk 5 0) ∧
      (Entity.mk 0 true true true {0} [(0, Component.mk 5 0)]).has 0 = true) :=
  ⟨(get_find_has_contract (Entity.mk 0 true true true {0} [(0, Component.mk 5 0)]) 1).1 rfl,
   (get_find_has_contract (Entity.mk 0 true true true {0} [(0, Component.mk 5 0)]) 0).2
     (Component.mk 5 0) rfl⟩

/-- C10: the three lookup operations are mutually consistent — `has` is
true iff `find` returns a component iff `get` succeeds, and `find` and
`get` both return exactly the instance stored in the component map. -/
theorem lookup_consistency (e : Entity) (ti : ℕ) :
    (e.has ti = true ↔ ∃ c, e.find ti = some c) ∧
    (e.has ti = true ↔ ∃ c, e.get ti = Except.ok c) ∧
    (∀ c, e.find ti = some c ↔ e.get ti = Except.ok c) ∧
    (∀ c, e.find ti = some c ↔ mapLookup e._components ti = some c) := by
  cases h : mapLookup e._components ti <;>
    simp [Entity.has, Entity.find, Entity.get, h]

/-- C3: adding a component type already present on the entity fails with
`DuplicateComponentError` and the originally attached instance stays
attached unchanged; adding an absent type succeeds, returning the newly
constructed component, which is then attached. -/
theorem add_duplicate_contract (w : World) (eid ti : ℕ) (e : Entity)
    (he : w.findLiveEntity eid = some e) :
    (∀ c, mapLookup e._components ti = some c →
      (w.entityAdd eid ti).2.2 = Except.error EcsError.duplicateComponent ∧
        (w.entityAdd eid ti).1 = w ∧
        ∃ e1, (w.entityAdd eid ti).1.findLiveEntity eid = some e1 ∧
          mapLookup e1._components ti = some c) ∧
    (mapLookup e._components ti = none →
      ∃ c, (w.entityAdd eid ti).2.2 = Except.ok c ∧
        c = Component.mk w.nextInstanceId ti ∧
        ∃ e1, (w.entityAdd eid ti).1.findLiveEntity eid = some e1 ∧
          mapLookup e1._components ti = some c) := by
  have hp := List.find?_some he
  simp only [Bool.and_eq_true, decide_eq_true_eq] at hp
  obtain ⟨hei, hel⟩ := hp
  subst hei
  constructor
  · intro c hc
    unfold World.entityAdd
    rw [he]
    dsimp only
    rw [if_pos (by simp [hc])]
    exact ⟨rfl, rfl, e, he, hc⟩
  · intro h
    unfold World.entityAdd
    rw [he]
    dsimp only
    rw [if_neg (by simp [h])]
    refine ⟨_, rfl, rfl, ?_⟩
    exact ⟨_, find?_replace_some rfl hel he, by simp [mapLookup_mapSet]⟩

theorem add_duplicate_contract_witness :
    ((runOps initialWorld [Op.create, Op.add 0 0]).entityAdd 0 0).2.2 =
        Except.error EcsError.duplicateComponent ∧
      ((runOps initialWorld [Op.create, Op.add 0 0]).entityAdd 0 0).1 =
        runOps initialWorld [Op.create, Op.add 0 0] ∧
      ∃ e1, ((runOps initialWorld [Op.create, Op.add 0 0]).entityAdd 0 0).1.findLiveEntity 0 =
          some e1 ∧ mapLookup e1._components 0 = some (Component.mk 0 0) :=
  (add_duplicate_contract (runOps initialWorld [Op.create, Op.add 0 0]) 0 0
      (Entity.mk 0 true true true {0} [(0, Component.mk 0 0)]) (by decide)).1
    (Component.mk 0 0) (by decide)

/-- C4 counterexample to the claim as stated: an entity owning component
instance `⟨0, 0⟩` of type index 0; removing the distinct instance
`⟨99, 0⟩` of the same type — an instance that is not the one currently
attached — succeeds instead of failing with `ComponentNotFoundError`. -/
theorem remove_instance_identity_counterexample :
    ((runOps initialWorld [Op.create, Op.add 0 0]).entityRemove 0
        (RemoveArg.byInstance (Component.mk 99 0))).2.2 = Except.ok () ∧
      Component.mk 99 0 ≠ Component.mk 0 0 ∧
      ((runOps initialWorld [Op.create, Op.add 0 0]).findLiveEntity 0).map
          (fun e => e.find 0) = some (some (Component.mk 0 0)) := by
  exact ⟨by decide, by decide, by decide⟩

/-- C4 (amended): `remove` fails with `ComponentNotFoundError` exactly
when the entity owns no component at the argument's resolved type index
— for a component instance argument only `_class.componentIndex` is
consulted, never the instance identity — and succeeds otherwise. -/
theorem remove_error_contract (w : World) (eid : ℕ) (v : RemoveArg) (e : Entity)
    (he : w.findLiveEntity eid = some e) :
    ((w.entityRemove eid v).2.2 = Except.error EcsError.componentNotFound ↔
      mapLookup e._components v.index = none) ∧
    ((w.entityRemove eid v).2.2 = Except.ok () ↔
      (mapLookup e._components v.index).isSome = true) := by
  unfold World.entityRemove
  rw [he]
  dsimp only
  by_cases hp : (mapLookup e._components v.index).isSome = true
  · obtain ⟨c, hc⟩ := Option.isSome_iff_exists.mp hp
    rw [if_pos hp]
    simp [hc]
  · have hn : mapLookup e._components v.index = none := by
      cases hcc : mapLookup e._components v.index with
      | none => rfl
      | some c => rw [hcc] at hp; simp at hp
    rw [if_neg hp]
    simp [hn]

theorem remove_error_contract_witness :
    (((runOps initialWorld [Op.create, Op.add 0 0]).entityRemove 0
          (RemoveArg.byType 1)).2.2 = Except.error EcsError.componentNotFound ↔
        mapLookup [(0, Component.mk 0 0)] 1 = none) ∧
      (((runOps initialWorld [Op.create, Op.add 0 0]).entityRemove 0
          (RemoveArg.byType 1)).2.2 = Except.ok () ↔
        (mapLookup [(0, Component.mk 0 0)] 1).isSome = true) :=
  remove_error_contract (runOps initialWorld [Op.create, Op.add 0 0]) 0
    (RemoveArg.byType 1) (Entity.mk 0 true true true {0} [(0, Component.mk 0 0)])
    (by decide)

/-- C5: a failed `add` or `remove` — one that returns an error — leaves
the world, and in particular the entity's bitset and component map,
exactly as they were before the call. -/
theorem failed_mutation_atomic (w : World) (eid : ℕ) :
    (∀ ti err, (w.entityAdd eid ti).2.2 = Except.error err →
      (w.entityAdd eid ti).1 = w) ∧
    (∀ v err, (w.entityRemove eid v).2.2 = Except.error err →
      (w.entityRemove eid v).1 = w) := by
  constructor
  · intro ti err h
    unfold World.entityAdd at h ⊢
    cases he : w.findLiveEntity eid with
    | none => rfl
    | some e =>
      rw [he] at h
      dsimp only at h ⊢
      by_cases hdup : (mapLookup e._components ti).isSome = true
      · rw [if_pos hdup]
      · rw [if_neg hdup] at h
        simp at h
  · intro v err h
    unfold World.entityRemove at h ⊢
    cases he : w.findLiveEntity eid with
    | none => rfl
    | some e =>
      rw [he] at h
      dsimp only at h ⊢
      by_cases hp : (mapLookup e._components v.index).isSome = true
      · rw [if_pos hp] at h
        simp at h
      · rw [if_neg hp]

theorem failed_mutation_atomic_witness :
    (initialWorld.entityAdd 0 0).1 = initialWorld ∧
      (initialWorld.entityRemove 0 (RemoveArg.byType 0)).1 = initialWorld :=
  ⟨(failed_mutation_atomic initialWorld 0).1 0 EcsError.staleEntity rfl,
   (failed_mutation_atomic initialWorld 0).2 (RemoveArg.byType 0) EcsError.staleEntity
     rfl⟩

/-- C6: `destroy` is a no-op — no error, no notifications, no state
change — when the entity has no owning Space/World, and calling
`destroy` a second time on the same entity has no observable effect:
destroy is idempotent. -/
theorem destroy_noop_idempotent (w : World) (eid : ℕ) :
    (∀ e, w.entities.find? (fun x => decide (x.id = eid)) = some e →
      (e.space && e.world) = false → w.entityDestroy eid = (w, [])) ∧
    (w.entityDestroy eid).1.entityDestroy eid = ((w.entityDestroy eid).1, []) := by
  constructor
  · intro e he hdead
    unfold World.entityDestroy
    rw [he]
    dsimp only
    rw [if_neg (by simp [hdead])]
  · cases he : w.entities.find? (fun x => decide (x.id = eid)) with
    | none =>
      have h1 : w.entityDestroy eid = (w, []) := by
        unfold World.entityDestroy
        rw [he]
      rw [h1]
      exact h1
    | some e =>
      by_cases hl : (e.space && e.world) = true
      · have hp := List.find?_some he
        simp only [decide_eq_true_eq] at hp
        subst hp
        have h1 : (w.entityDestroy e.id).1 =
            World.mk (w.entities.map fun x =>
                if x.id = e.id then Entity.mk e.id e.initialised false false ∅ [] else x)
              ((deregisterQueries e.id w.queries).1)
              w.componentRegistry w.nextEntityId w.nextInstanceId := by
          unfold World.entityDestroy
          rw [he]
          dsimp only
          rw [if_pos hl]
          rfl
        rw [h1]
        have h2 := @find?_id_replace w.entities e.id e
          (Entity.mk e.id e.initialised false false ∅ []) rfl he
        unfold World.entityDestroy
        rw [h2]
        dsimp only
        rw [if_neg (by simp)]
      · have h1 : w.entityDestroy eid = (w, []) := by
          unfold World.entityDestroy
          rw [he]
          dsimp only
          rw [if_neg hl]
        rw [h1]
        exact h1

theorem destroy_noop_idempotent_witness :
    ((runOps initialWorld [Op.create]).entityDestroy 0).1.entityDestroy 0 =
      (((runOps initialWorld [Op.create]).entityDestroy 0).1, []) ∧
    (runOps initialWorld [Op.create, Op.destroy 0]).entityDestroy 0 =
      (runOps initialWorld [Op.create, Op.destroy 0], []) :=
  ⟨(destroy_noop_idempotent (runOps initialWorld [Op.create]) 0).2,
   (destroy_noop_idempotent (runOps initialWorld [Op.create, Op.destroy 0]) 0).1
     (Entity.mk 0 false false false ∅ []) (by decide) (by decide)⟩

/-! ### The component registry -/

theorem lookupTypeIndex_lt {l : List ℕ} {t i : ℕ}
    (h : lookupTypeIndex l t = some i) : i < l.length := by
  induction l generalizing i with
  | nil => cases h
  | cons a l ih =>
    by_cases ha : a = t
    · rw [lookupTypeIndex, if_pos ha] at h
      cases h
      simp
    · rw [lookupTypeIndex, if_neg ha] at h
      cases hl : lookupTypeIndex l t with
      | none => rw [hl] at h; cases h
      | some j =>
        rw [hl] at h
        simp at h
        have := ih hl
        simp only [List.length_cons]
        omega

theorem lookupTypeIndex_inj {l : List ℕ} {t1 t2 i : ℕ}
    (h1 : lookupTypeIndex l t1 = some i) (h2 : lookupTypeIndex l t2 = some i) :
    t1 = t2 := by
  induction l generalizing i with
  | nil => cases h1
  | cons a l ih =>
    by_cases ha1 : a = t1 <;> by_cases ha2 : a = t2
    · exact ha1.symm.trans ha2
    · rw [lookupTypeIndex, if_pos ha1] at h1
      rw [lookupTypeIndex, if_neg ha2] at h2
      cases h1
      cases hl : lookupTypeIndex l t2 with
      | none => rw [hl] at h2; cases h2
      | some j => rw [hl] at h2; simp at h2
    · rw [lookupTypeIndex, if_neg ha1] at h1
      rw [lookupTypeIndex, if_pos ha2] at h2
      cases h2
      cases hl : lookupTypeIndex l t1 with
      | none => rw [hl] at h1; cases h1
      | some j => rw [hl] at h1; simp at h1
    · rw [lookupTypeIndex, if_neg ha1] at h1
      rw [lookupTypeIndex, if_neg ha2] at h2
      cases hl1 : lookupTypeIndex l t1 with
      | none => rw [hl1] at h1; cases h1
      | some j1 =>
        cases hl2 : lookupTypeIndex l t2 with
        | none => rw [hl2] at h2; cases h2
        | some j2 =>
          rw [hl1] at h1
          rw [hl2] at h2
          simp at h1 h2
          subst h1
          have hj : j1 = j2 := by omega
          exact ih (hj ▸ hl1) hl2

theorem lookupTypeIndex_append_some {l : List ℕ} {t i : ℕ}
    (h : lookupTypeIndex l t = some i) (a : ℕ) :
    lookupTypeIndex (l ++ [a]) t = some i := by
  induction l generalizing i with
  | nil => cases h
  | cons b l ih =>
    by_cases hb : b = t
    · rw [lookupTypeIndex, if_pos hb] at h
      cases h
      rw [List.cons_append, lookupTypeIndex, if_pos hb]
    · rw [lookupTypeIndex, if_neg hb] at h
      cases hl : lookupTypeIndex l t with
      | none => rw [hl] at h; cases h
      | some j =>
        rw [hl] at h
        simp at h
        rw [List.cons_append, lookupTypeIndex, if_neg hb, ih hl]
        simp [h]

theorem lookupTypeIndex_append_none {l : List ℕ} {t : ℕ}
    (h : lookupTypeIndex l t = none) (a : ℕ) :
    lookupTypeIndex (l ++ [a]) t = if a = t then some l.length else none := by
  induction l with
  | nil => rfl
  | cons b l ih =>
    by_cases hb : b = t
    · rw [lookupTypeIndex, if_pos hb] at h
      cases h
    · rw [lookupTypeIndex, if_neg hb] at h
      cases hl : lookupTypeIndex l t with
      | none =>
        rw [List.cons_append, lookupTypeIndex, if_neg hb, ih hl]
        by_cases ha : a = t <;> simp [ha]
      | some j => rw [hl] at h; cases h

/-- C8: registering the same component type twice with a World's registry
returns the same `ComponentTypeIndex`; two distinct types registered with
the same World receive distinct indices — indices are never reused. -/
theorem registerType_idempotent_injective (w : World) (t1 t2 : ℕ) :
    ((w.registerComponentType t1).1.registerComponentType t1).2 =
      (w.registerComponentType t1).2 ∧
    (t1 ≠ t2 →
      ((w.registerComponentType t1).1.registerComponentType t2).2 ≠
        (w.registerComponentType t1).2) := by
  unfold World.registerComponentType
  cases h1 : lookupTypeIndex w.componentRegistry t1 with
  | some i =>
    dsimp only
    rw [h1]
    constructor
    · rfl
    · intro hne
      cases h2 : lookupTypeIndex w.componentRegistry t2 with
      | some j =>
        dsimp only
        intro hji
        rw [hji] at h2
        exact hne (lookupTypeIndex_inj h1 h2)
      | none =>
        dsimp only
        intro hji
        have := lookupTypeIndex_lt h1
        omega
  | none =>
    dsimp only
    rw [lookupTypeIndex_append_none h1 t1, if_pos rfl]
    constructor
    · rfl
    · intro hne
      cases h2 : lookupTypeIndex w.componentRegistry t2 with
      | some j =>
        rw [lookupTypeIndex_append_some h2 t1]
        dsimp only
        intro hji
        have := lookupTypeIndex_lt h2
        omega
      | none =>
        rw [lookupTypeIndex_append_none h2 t1, if_neg hne]
        dsimp only
        intro hji
        simp only [List.length_append, List.length_singleton] at hji
        omega

theorem registerType_idempotent_injective_witness :
    ((initialWorld.registerComponentType 0).1.registerComponentType 0).2 =
        (initialWorld.registerComponentType 0).2 ∧
      ((initialWorld.registerComponentType 0).1.registerComponentType 1).2 ≠
        (initialWorld.registerComponentType 0).2 :=
  ⟨(registerType_idempotent_injective initialWorld 0 1).1,
   (registerType_idempotent_injective initialWorld 0 1).2 (by decide)⟩

/-! ### Counting qualify/disqualify notifications -/

theorem count_notif_single (eid : ℕ) (m : Bool) (b : RegisteredQuery) (q : Query)
    (hbq : b.query ≠ q) :
    ((updateQueryForEntity eid m b).2).count (Notif.qualify eid q) = 0 ∧
    ((updateQueryForEntity eid m b).2).count (Notif.disqualify eid q) = 0 := by
  unfold updateQueryForEntity
  cases m <;> by_cases h : eid ∈ b.results <;>
    simp [h, List.count_cons, List.count_nil, hbq]

theorem count_notif_own (eid : ℕ) (m : Bool) (b : RegisteredQuery) :
    ((updateQueryForEntity eid m b).2).count (Notif.qualify eid b.query) =
      (if m = true ∧ eid ∉ b.results then 1 else 0) ∧
    ((updateQueryForEntity eid m b).2).count (Notif.disqualify eid b.query) =
      (if m = false ∧ eid ∈ b.results then 1 else 0) := by
  unfold updateQueryForEntity
  cases m <;> by_cases h : eid ∈ b.results <;>
    simp [h, List.count_cons, List.count_nil]

theorem counts_updateQueries_zero (eid : ℕ) (bs : Finset ℕ)
    (qs : List RegisteredQuery) (q : Query) (hq : ∀ b ∈ qs, b.query ≠ q) :
    ((updateQueries eid bs qs).2).count (Notif.qualify eid q) = 0 ∧
    ((updateQueries eid bs qs).2).count (Notif.disqualify eid q) = 0 := by
  induction qs with
  | nil => exact ⟨rfl, rfl⟩
  | cons a qs ih =>
    have h1 := count_notif_single eid (matchesB bs a.query) a q (hq a (by simp))
    have h2 := ih fun b hb => hq b (by simp [hb])
    simp only [updateQueries, List.flatMap_cons, List.count_append] at h2 ⊢
    omega

theorem counts_updateQueries (eid : ℕ) (bs : Finset ℕ)
    (qs : List RegisteredQuery) (hq : (qs.map fun rq => rq.query).Nodup)
    (rq : RegisteredQuery) (hrq : rq ∈ qs) :
    ((updateQueries eid bs qs).2).count (Notif.qualify eid rq.query) =
      (if matchesB bs rq.query = true ∧ eid ∉ rq.results then 1 else 0) ∧
    ((updateQueries eid bs qs).2).count (Notif.disqualify eid rq.query) =
      (if matchesB bs rq.query = false ∧ eid ∈ rq.results then 1 else 0) := by
  induction qs with
  | nil => cases hrq
  | cons a qs ih =>
    rw [List.map_cons, List.nodup_cons] at hq
    rcases List.mem_cons.mp hrq with rfl | hrq'
    · have h1 := count_notif_own eid (matchesB bs rq.query) rq
      have h2 := counts_updateQueries_zero eid bs qs rq.query
        (fun b hb hbq => hq.1 (List.mem_map.mpr ⟨b, hb, hbq⟩))
      simp only [updateQueries, List.flatMap_cons, List.count_append] at h2 ⊢
      omega
    · have ha : rq.query ≠ a.query := by
        intro h
        exact hq.1 (List.mem_map.mpr ⟨rq, hrq', h⟩)
      have h1 := count_notif_single eid (matchesB bs a.query) a rq.query (Ne.symm ha)
      have h2 := ih hq.2 hrq'
      simp only [updateQueries, List.flatMap_cons, List.count_append] at h2 ⊢
      omega

theorem counts_deregister_zero (eid : ℕ) (qs : List RegisteredQuery) (q : Query)
    (hq : ∀ b ∈ qs, b.query ≠ q) :
    ((deregisterQueries eid qs).2).count (Notif.qualify eid q) = 0 ∧
    ((deregisterQueries eid qs).2).count (Notif.disqualify eid q) = 0 := by
  induction qs with
  | nil => exact ⟨rfl, rfl⟩
  | cons a qs ih =>
    have h1 := count_notif_single eid false a q (hq a (by simp))
    have h2 := ih fun b hb => hq b (by simp [hb])
    simp only [deregisterQueries, List.flatMap_cons, List.count_append] at h2 ⊢
    omega

theorem counts_deregister (eid : ℕ) (qs : List RegisteredQuery)
    (hq : (qs.map fun rq => rq.query).Nodup)
    (rq : RegisteredQuery) (hrq : rq ∈ qs) :
    ((deregisterQueries eid qs).2).count (Notif.qualify eid rq.query) = 0 ∧
    ((deregisterQueries eid qs).2).count (Notif.disqualify eid rq.query) =
      (if eid ∈ rq.results then 1 else 0) := by
  induction qs with
  | nil => cases hrq
  | cons a qs ih =>
    rw [List.map_cons, List.nodup_cons] at hq
    rcases List.mem_cons.mp hrq with rfl | hrq'
    · have h1 := count_notif_own eid false rq
      have h2 := counts_deregister_zero eid qs rq.query
        (fun b hb hbq => hq.1 (List.mem_map.mpr ⟨b, hb, hbq⟩))
      simp only [deregisterQueries, List.flatMap_cons, List.count_append] at h2 ⊢
      simp at h1
      omega
    · have ha : rq.query ≠ a.query := by
        intro h
        exact hq.1 (List.mem_map.mpr ⟨rq, hrq', h⟩)
      have h1 := count_notif_single eid false a rq.query (Ne.symm ha)
      have h2 := ih hq.2 hrq'
      simp only [deregisterQueries, List.flatMap_cons, List.count_append] at h2 ⊢
      omega

theorem find?_live_of_find?_id {l : List Entity} {eid : ℕ} {e : Entity}
    (h : l.find? (fun x => decide (x.id = eid)) = some e) (hl : e.live = true) :
    l.find? (fun x => decide (x.id = eid) && x.live) = some e := by
  induction l with
  | nil => cases h
  | cons a l ih =>
    by_cases ha : a.id = eid
    · rw [List.find?_cons_of_pos _ (by simp [ha])] at h
      cases h
      rw [List.find?_cons_of_pos _ (by simp [ha, hl])]
    · rw [List.find?_cons_of_neg _ (by simp [ha])] at h
      rw [List.find?_cons_of_neg _ (by simp [ha])]
      exact ih h

/-- The explicit result of a successful component add. -/
theorem entityAdd_success_eq (w : World) (eid ti : ℕ) (e : Entity)
    (he : w.findLiveEntity eid = some e)
    (hdup : ¬(mapLookup e._components ti).isSome = true) :
    w.entityAdd eid ti =
      (World.mk (w.entities.map fun x =>
          if x.id = e.id then Entity.mk e.id true e.space e.world
            (insert ti e._componentsBitSet)
            (mapSet e._components ti (Component.mk w.nextInstanceId ti)) else x)
        ((updateQueries e.id (insert ti e._componentsBitSet) w.queries).1)
        w.componentRegistry w.nextEntityId (w.nextInstanceId + 1),
       (updateQueries e.id (insert ti e._componentsBitSet) w.queries).2,
       Except.ok (Component.mk w.nextInstanceId ti)) := by
  unfold World.entityAdd
  rw [he]
  dsimp only
  rw [if_neg hdup]
  rfl

/-- The explicit result of a successful component remove. -/
theorem entityRemove_success_eq (w : World) (eid : ℕ) (v : RemoveArg) (e : Entity)
    (he : w.findLiveEntity eid = some e)
    (hp : (mapLookup e._components v.index).isSome = true) :
    w.entityRemove eid v =
      (World.mk (w.entities.map fun x =>
          if x.id = e.id then Entity.mk e.id e.initialised e.space e.world
            (e._componentsBitSet.erase v.index) (mapDelete e._components v.index) else x)
        ((updateQueries e.id (e._componentsBitSet.erase v.index) w.queries).1)
        w.componentRegistry w.nextEntityId w.nextInstanceId,
       (updateQueries e.id (e._componentsBitSet.erase v.index) w.queries).2,
       Except.ok ()) := by
  unfold World.entityRemove
  rw [he]
  dsimp only
  rw [if_pos hp]
  rfl

/-- The explicit result of destroying a live entity. -/
theorem entityDestroy_live_eq (w : World) (eid : ℕ) (e : Entity)
    (he : w.entities.find? (fun x => decide (x.id = eid)) = some e)
    (hl : (e.space && e.world) = true) :
    w.entityDestroy eid =
      (World.mk (w.entities.map fun x =>
          if x.id = e.id then Entity.mk e.id e.initialised false false ∅ [] else x)
        ((deregisterQueries eid w.queries).1)
        w.componentRegistry w.nextEntityId w.nextInstanceId,
       (deregisterQueries eid w.queries).2) := by
  unfold World.entityDestroy
  rw [he]
  dsimp only
  rw [if_pos hl]
  rfl

/-- The explicit result of creating an entity. -/
theorem createEntity_eq (w : World) :
    w.createEntity =
      (World.mk (w.entities ++ [Entity.mk w.nextEntityId false true true ∅ []])
        ((updateQueries w.nextEntityId ∅ w.queries).1)
        w.componentRegistry (w.nextEntityId + 1) w.nextInstanceId,
       (updateQueries w.nextEntityId ∅ w.queries).2,
       w.nextEntityId) := rfl

/-- C7: for every registered query and every single mutating call on an
entity, a qualify notification for `(e, q)` is emitted exactly once when
`e` goes from not matching `q` to matching `q`, a disqualify
notification exactly once when `e` goes from matching to not matching,
and no notification for `(e, q)` when the match state is unchanged by
the call. -/
theorem notifications_per_transition (w : World) (hInv : Inv w) (op : Op) (eid : ℕ)
    (hop : opTarget w op = some eid) (rq : RegisteredQuery) (hrq : rq ∈ w.queries) :
    ((applyStep w op).2.count (Notif.qualify eid rq.query) =
      if matchStateAt w eid rq.query = false ∧
          matchStateAt (applyStep w op).1 eid rq.query = true then 1 else 0) ∧
    ((applyStep w op).2.count (Notif.disqualify eid rq.query) =
      if matchStateAt w eid rq.query = true ∧
          matchStateAt (applyStep w op).1 eid rq.query = false then 1 else 0) := by
  obtain ⟨hnd, hlt, hqnd, hrl, hc⟩ := hInv
  cases op with
  | registerQuery q => simp [opTarget] at hop
  | registerComponentType t => simp [opTarget] at hop
  | create =>
    simp only [opTarget, Option.some.injEq] at hop
    subst hop
    have hstep : applyStep w Op.create =
        (World.mk (w.entities ++ [Entity.mk w.nextEntityId false true true ∅ []])
          ((updateQueries w.nextEntityId ∅ w.queries).1)
          w.componentRegistry (w.nextEntityId + 1) w.nextInstanceId,
         (updateQueries w.nextEntityId ∅ w.queries).2) := by
      unfold applyStep
      rw [createEntity_eq]
    have hnone : w.findLiveEntity w.nextEntityId = none := by
      apply List.find?_eq_none.mpr
      intro x hx
      simp only [Bool.and_eq_true, decide_eq_true_eq, not_and]
      intro hxid
      exact absurd hxid (Nat.ne_of_lt (hlt x hx))
    have hb : matchStateAt w w.nextEntityId rq.query = false := by
      unfold matchStateAt
      rw [hnone]
    have hap : (w.entities ++ [Entity.mk w.nextEntityId false true true ∅ []]).find?
        (fun x => decide (x.id = w.nextEntityId) && x.live) =
        some (Entity.mk w.nextEntityId false true true ∅ []) := by
      rw [List.find?_append, List.find?_eq_none.mpr, Option.none_or]
      · simp [List.find?, Entity.live]
      · intro x hx
        simp only [Bool.and_eq_true, decide_eq_true_eq, not_and]
        intro hxid
        exact absurd hxid (Nat.ne_of_lt (hlt x hx))
    have ha : matchStateAt (applyStep w Op.create).1 w.nextEntityId rq.query =
        matchesB ∅ rq.query := by
      rw [hstep]
      unfold matchStateAt World.findLiveEntity
      dsimp only
      rw [hap]
    have hnotin : w.nextEntityId ∉ rq.results := by
      intro hin
      obtain ⟨x, hx, _, hxi⟩ := hrl rq hrq _ hin
      have := hlt x hx
      omega
    have hcnt := counts_updateQueries w.nextEntityId ∅ w.queries hqnd rq hrq
    rw [hb, ha, hstep]
    dsimp only
    rw [hcnt.1, hcnt.2]
    by_cases hm : matchesB ∅ rq.query = true <;> simp [hm, hnotin]
  | add eid0 ti =>
    simp only [opTarget, Option.some.injEq] at hop
    subst hop
    cases he : w.findLiveEntity eid0 with
    | none =>
      have hstep : applyStep w (Op.add eid0 ti) = (w, []) := by
        unfold applyStep World.entityAdd
        dsimp only
        rw [he]
      rw [hstep]
      rcases hX : matchStateAt w eid0 rq.query <;> simp [hX]
    | some e =>
      have hp := List.find?_some he
      simp only [Bool.and_eq_true, decide_eq_true_eq] at hp
      obtain ⟨hei, hel⟩ := hp
      subst hei
      by_cases hdup : (mapLookup e._components ti).isSome = true
      · have hstep : applyStep w (Op.add e.id ti) = (w, []) := by
          unfold applyStep World.entityAdd
          dsimp only
          rw [he]
          dsimp only
          rw [if_pos hdup]
        rw [hstep]
        rcases hX : matchStateAt w e.id rq.query <;> simp [hX]
      · have hstep : applyStep w (Op.add e.id ti) =
            (World.mk (w.entities.map fun x =>
                if x.id = e.id then Entity.mk e.id true e.space e.world
                  (insert ti e._componentsBitSet)
                  (mapSet e._components ti (Component.mk w.nextInstanceId ti)) else x)
              ((updateQueries e.id (insert ti e._componentsBitSet) w.queries).1)
              w.componentRegistry w.nextEntityId (w.nextInstanceId + 1),
             (updateQueries e.id (insert ti e._componentsBitSet) w.queries).2) := by
          unfold applyStep
          dsimp only
          rw [entityAdd_success_eq w e.id ti e he hdup]
        have hb : matchStateAt w e.id rq.query =
            matchesB e._componentsBitSet rq.query := by
          unfold matchStateAt
          rw [he]
        have hap := @find?_replace_some w.entities e.id e
          (Entity.mk e.id true e.space e.world (insert ti e._componentsBitSet)
            (mapSet e._components ti (Component.mk w.nextInstanceId ti))) rfl hel he
        have ha : matchStateAt (applyStep w (Op.add e.id ti)).1 e.id rq.query =
            matchesB (insert ti e._componentsBitSet) rq.query := by
          rw [hstep]
          unfold matchStateAt World.findLiveEntity
          dsimp only
          rw [hap]
        have hmemb : e.id ∈ rq.results ↔ matchesB e._componentsBitSet rq.query = true :=
          hc rq hrq e (List.mem_of_find?_eq_some he) hel
        have hcnt := counts_updateQueries e.id (insert ti e._componentsBitSet)
          w.queries hqnd rq hrq
        rw [hb, ha, hstep]
        dsimp only
        rw [hcnt.1, hcnt.2]
        by_cases hm1 : matchesB e._componentsBitSet rq.query = true <;>
          by_cases hm2 : matchesB (insert ti e._componentsBitSet) rq.query = true <;>
          simp [hm1, hm2, hmemb]
  | remove eid0 v =>
    simp only [opTarget, Option.some.injEq] at hop
    subst hop
    cases he : w.findLiveEntity eid0 with
    | none =>
      have hstep : applyStep w (Op.remove eid0 v) = (w, []) := by
        unfold applyStep World.entityRemove
        dsimp only
        rw [he]
      rw [hstep]
      rcases hX : matchStateAt w eid0 rq.query <;> simp [hX]
    | some e =>
      have hp := List.find?_some he
      simp only [Bool.and_eq_true, decide_eq_true_eq] at hp
      obtain ⟨hei, hel⟩ := hp
      subst hei
      by_cases hpres : (mapLookup e._components v.index).isSome = true
      · have hstep : applyStep w (Op.remove e.id v) =
            (World.mk (w.entities.map fun x =>
                if x.id = e.id then Entity.mk e.id e.initialised e.space e.world
                  (e._componentsBitSet.erase v.index)
                  (mapDelete e._components v.index) else x)
              ((updateQueries e.id (e._componentsBitSet.erase v.index) w.queries).1)
              w.componentRegistry w.nextEntityId w.nextInstanceId,
             (updateQueries e.id (e._componentsBitSet.erase v.index) w.queries).2) := by
          unfold applyStep
          dsimp only
          rw [entityRemove_success_eq w e.id v e he hpres]
        have hb : matchStateAt w e.id rq.query =
            matchesB e._componentsBitSet rq.query := by
          unfold matchStateAt
          rw [he]
        have hap := @find?_replace_some w.entities e.id e
          (Entity.mk e.id e.initialised e.space e.world
            (e._componentsBitSet.erase v.index)
            (mapDelete e._components v.index)) rfl hel he
        have ha : matchStateAt (applyStep w (Op.remove e.id v)).1 e.id rq.query =
            matchesB (e._componentsBitSet.erase v.index) rq.query := by
          rw [hstep]
          unfold matchStateAt World.findLiveEntity
          dsimp only
          rw [hap]
        have hmemb : e.id ∈ rq.results ↔ matchesB e._componentsBitSet rq.query = true :=
          hc rq hrq e (List.mem_of_find?_eq_some he) hel
        have hcnt := counts_updateQueries e.id (e._componentsBitSet.erase v.index)
          w.queries hqnd rq hrq
        rw [hb, ha, hstep]
        dsimp only
        rw [hcnt.1, hcnt.2]
        by_cases hm1 : matchesB e._componentsBitSet rq.query = true <;>
          by_cases hm2 : matchesB (e._componentsBitSet.erase v.index) rq.query = true <;>
          simp [hm1, hm2, hmemb]
      · have hstep : applyStep w (Op.remove e.id v) = (w, []) := by
          unfold applyStep World.entityRemove
          dsimp only
          rw [he]
          dsimp only
          rw [if_neg hpres]
        rw [hstep]
        rcases hX : matchStateAt w e.id rq.query <;> simp [hX]
  | destroy eid0 =>
    simp only [opTarget, Option.some.injEq] at hop
    subst hop
    cases he : w.entities.find? (fun x => decide (x.id = eid0)) with
    | none =>
      have hstep : applyStep w (Op.destroy eid0) = (w, []) := by
        unfold applyStep World.entityDestroy
        dsimp only
        rw [he]
      rw [hstep]
      rcases hX : matchStateAt w eid0 rq.query <;> simp [hX]
    | some e =>
      have hp := List.find?_some he
      simp only [decide_eq_true_eq] at hp
      subst hp
      by_cases hl : (e.space && e.world) = true
      · have hel : e.live = true := hl
        have hstep : applyStep w (Op.destroy e.id) =
            (World.mk (w.entities.map fun x =>
                if x.id = e.id then Entity.mk e.id e.initialised false false ∅ []
                else x)
              ((deregisterQueries e.id w.queries).1)
              w.componentRegistry w.nextEntityId w.nextInstanceId,
             (deregisterQueries e.id w.queries).2) := by
          unfold applyStep
          dsimp only
          rw [entityDestroy_live_eq w e.id e he hl]
        have hb : matchStateAt w e.id rq.query =
            matchesB e._componentsBitSet rq.query := by
          unfold matchStateAt World.findLiveEntity
          rw [find?_live_of_find?_id he hel]
        have hap := @find?_replace_dead w.entities e.id
          (Entity.mk e.id e.initialised false false ∅ []) rfl
        have ha : matchStateAt (applyStep w (Op.destroy e.id)).1 e.id rq.query = false := by
          rw [hstep]
          unfold matchStateAt World.findLiveEntity
          dsimp only
          rw [hap]
        have hmemb : e.id ∈ rq.results ↔ matchesB e._componentsBitSet rq.query = true :=
          hc rq hrq e (List.mem_of_find?_eq_some he) hel
        have hcnt := counts_deregister e.id w.queries hqnd rq hrq
        rw [hb, ha, hstep]
        dsimp only
        rw [hcnt.1, hcnt.2]
        by_cases hm : matchesB e._componentsBitSet rq.query = true <;>
          simp [hm, hmemb]
      · have hstep : applyStep w (Op.destroy e.id) = (w, []) := by
          unfold applyStep World.entityDestroy
          dsimp only
          rw [he]
          dsimp only
          rw [if_neg hl]
        rw [hstep]
        rcases hX : matchStateAt w e.id rq.query <;> simp [hX]

theorem notifications_per_transition_witness :
    ((applyStep (runOps initialWorld [Op.registerQuery (Query.mk {0} ∅ ∅), Op.create])
        (Op.add 0 0)).2.count
        (Notif.qualify 0 (RegisteredQuery.mk (Query.mk {0} ∅ ∅) ∅).query) =
      if matchStateAt (runOps initialWorld [Op.registerQuery (Query.mk {0} ∅ ∅), Op.create])
            0 (RegisteredQuery.mk (Query.mk {0} ∅ ∅) ∅).query = false ∧
          matchStateAt (applyStep (runOps initialWorld
              [Op.registerQuery (Query.mk {0} ∅ ∅), Op.create]) (Op.add 0 0)).1
            0 (RegisteredQuery.mk (Query.mk {0} ∅ ∅) ∅).query = true then 1 else 0) ∧
    ((applyStep (runOps initialWorld [Op.registerQuery (Query.mk {0} ∅ ∅), Op.create])
        (Op.add 0 0)).2.count
        (Notif.disqualify 0 (RegisteredQuery.mk (Query.mk {0} ∅ ∅) ∅).query) =
      if matchStateAt (runOps initialWorld [Op.registerQuery (Query.mk {0} ∅ ∅), Op.create])
            0 (RegisteredQuery.mk (Query.mk {0} ∅ ∅) ∅).query = true ∧
          matchStateAt (applyStep (runOps initialWorld
              [Op.registerQuery (Query.mk {0} ∅ ∅), Op.create]) (Op.add 0 0)).1
            0 (RegisteredQuery.mk (Query.mk {0} ∅ ∅) ∅).query = false then 1 else 0) :=
  notifications_per_transition
    (runOps initialWorld [Op.registerQuery (Query.mk {0} ∅ ∅), Op.create]) (by decide)
    (Op.add 0 0) 0 rfl (RegisteredQuery.mk (Query.mk {0} ∅ ∅) ∅) (by decide)

end Arancini
